import Mathlib

/-! Verification of the claims-normalization and denial-rate logic of the
insurance-claim dashboard (`src/app.py`).

Modelling conventions (shallow embedding of the pandas code):
* A table is a list of rows plus one Boolean flag per optional column,
  mirroring the `"COL" in df.columns` checks of `load_data`.
* A cell that may be null is an `Option` value (`none` = pandas `NaN`/`NaT`).
* Date cells carry the result of `pd.to_datetime(_, errors="coerce")`
  directly as `Option Int` (a day index): `none` stands for `NaT`, produced
  both by a null cell and by an unparseable string.  The string-to-date
  parser itself is pandas library code, not repository code, so it is
  abstracted away; everything the claims discuss (parseable vs unparseable,
  ordering of parsed dates) is preserved.
* Monetary amounts are `ℚ` (the claims involve only exact arithmetic).
* `df.sort_values(col)` (pandas default is to place missing values last) is
  modelled by a sort with a relation that puts `none` after every parsed
  date; the sort used here is stable, which also matches how pandas places
  the `NaT` block.
* `df.drop_duplicates(key, keep="last")` is `keepLastByKey`.
* `left.merge(right, left_on, right_on, how="left")` is `leftMerge`,
  which, like pandas, emits one output row per matching right row and a
  single unmatched row when there is no match.
-/

namespace ClaimApp

/-- One raw row of the claims table; each field is the cell of the
corresponding column (meaningful only when the flag of the table for that
column is `true`). -/
structure RawClaimRow where
  patientId : Option String
  status : Option String
  statusP : Option String
  status1 : Option String
  outstandingP : Option ℚ
  payer : Option String
  deriving DecidableEq, Repr

/-- The raw claims table: rows plus column-presence flags, mirroring the
`in claims.columns` checks of `load_data`. -/
structure RawClaimsTable where
  rows : List RawClaimRow
  hasPATIENTID : Bool
  hasSTATUS : Bool
  hasSTATUSP : Bool
  hasSTATUS1 : Bool
  hasOUTSTANDINGP : Bool
  hasPAYER : Bool
  deriving DecidableEq, Repr

/-- One raw row of the payer-transitions table.  `startDate` is the value
of `pd.to_datetime(row.START_DATE, errors="coerce")`: `none` is `NaT`. -/
structure PayerTransRow where
  patient : Option String
  payer : Option String
  startDate : Option Int
  deriving DecidableEq, Repr

/-- The payer-transitions table with its column-presence flags. -/
structure PayerTransTable where
  rows : List PayerTransRow
  hasPATIENT : Bool
  hasPAYER : Bool
  hasSTART_DATE : Bool
  deriving DecidableEq, Repr

/-- A canonical claim row after `load_data` finishes: the original columns
(`orig`), plus the final STATUS, DENIED and PAYER columns. -/
structure CanonClaimRow where
  orig : RawClaimRow
  status : Option String
  denied : Bool
  payer : Option String
  deriving DecidableEq, Repr

/-- Comparison used by `sort_values("START_DATE")`: parsed dates compare
normally and `NaT` sorts after every parsed date (the pandas default
placement of missing keys). -/
def natLastLE : Option Int → Option Int → Bool
  | _, none => true
  | none, some _ => false
  | some a, some b => decide (a ≤ b)

/-- Row ordering induced by `natLastLE` on the START_DATE column. -/
abbrev ptRel (a b : PayerTransRow) : Prop :=
  natLastLE a.startDate b.startDate = true

instance : DecidableRel ptRel :=
  fun a b => instDecidableEqBool (natLastLE a.startDate b.startDate) true

/-- Model of `drop_duplicates(key, keep="last")`: keep, in order, the last
occurrence of each key. -/
def keepLastByKey {α β : Type} [DecidableEq β] (key : α → β) : List α → List α
  | [] => []
  | x :: xs =>
      if xs.any (fun y => decide (key y = key x)) then keepLastByKey key xs
      else x :: keepLastByKey key xs

/-- Model of a pandas left merge (`how="left"`): for each left row, one
output row per matching right row, or a single row with no right part when
nothing matches.  Duplicated right keys would duplicate left rows, exactly
as in pandas. -/
def leftMerge {L R K : Type} [DecidableEq K]
    (lrows : List L) (rrows : List R) (lk : L → K) (rk : R → K) :
    List (L × Option R) :=
  lrows.flatMap (fun l =>
    let ms := rrows.filter (fun r => decide (rk r = lk l))
    if ms.isEmpty then [(l, none)] else ms.map (fun r => (l, some r)))

/-- Lines 53-57 of `app.py`: the payer-attribution merge runs only when
all three join columns exist. -/
def mergeCond (c : RawClaimsTable) (pt : PayerTransTable) : Bool :=
  c.hasPATIENTID && pt.hasPATIENT && pt.hasPAYER

/-- Lines 58-63: parse START_DATE and sort by it when the column exists
(`NaT` rows go last); otherwise leave the input order. -/
def pt_sorted (pt : PayerTransTable) : List PayerTransRow :=
  if pt.hasSTART_DATE then List.insertionSort ptRel pt.rows else pt.rows

/-- Lines 64-66: `drop_duplicates("PATIENT", keep="last")` followed by the
selection of the PATIENT and PAYER columns. -/
def latest_payer (pt : PayerTransTable) : List (Option String × Option String) :=
  (keepLastByKey (fun r => r.patient) (pt_sorted pt)).map (fun r => (r.patient, r.payer))

/-- Lines 38-44: STATUS resolution, driven by column presence. -/
def statusOf (c : RawClaimsTable) (r : RawClaimRow) : Option String :=
  if c.hasSTATUS then r.status
  else if c.hasSTATUSP then r.statusP
  else if c.hasSTATUS1 then r.status1
  else some "UNKNOWN"

/-- Lines 46-50: `DENIED = OUTSTANDINGP > 0` when the column exists
(a null balance compares as not greater, as in pandas), else `False`. -/
def deniedOf (c : RawClaimsTable) (r : RawClaimRow) : Bool :=
  if c.hasOUTSTANDINGP then
    match r.outstandingP with
    | some v => decide (0 < v)
    | none => false
  else false

/-- Model of the claims pipeline of `load_data` (lines 38-71): STATUS and
DENIED are derived per row; then, when the join columns exist, the
latest-payer table is left-merged on; finally line 70 adds a literal
`"Unknown"` PAYER column only when no PAYER column is present.  After the
merge, PAYER is absent exactly when the merge was skipped and the claims
table had none of its own — or when the merge ran and a pre-existing PAYER
column was suffixed away by the merge, in which case every row also gets
the literal. -/
def normalizeClaims (c : RawClaimsTable) (pt : PayerTransTable) :
    List CanonClaimRow :=
  if mergeCond c pt then
    (leftMerge c.rows (latest_payer pt) (fun r => r.patientId) (fun q => q.1)).map
      (fun rp =>
        { orig := rp.1
          status := statusOf c rp.1
          denied := deniedOf c rp.1
          payer :=
            if c.hasPAYER then some "Unknown"
            else rp.2.bind (fun q => q.2) })
  else
    c.rows.map (fun r =>
      { orig := r
        status := statusOf c r
        denied := deniedOf c r
        payer := if c.hasPAYER then r.payer else some "Unknown" })

/-- The final PAYER value of a claim row, as a function of the raw row:
used to state positional facts about the pipeline. -/
def payerOf (c : RawClaimsTable) (pt : PayerTransTable) (r : RawClaimRow) :
    Option String :=
  if mergeCond c pt then
    if c.hasPAYER then some "Unknown"
    else ((latest_payer pt).find? (fun q => decide (q.1 = r.patientId))).bind
      (fun q => q.2)
  else if c.hasPAYER then r.payer else some "Unknown"

/-- The canonical row produced from raw row `r`. -/
def canonOf (c : RawClaimsTable) (pt : PayerTransTable) (r : RawClaimRow) :
    CanonClaimRow :=
  { orig := r
    status := statusOf c r
    denied := deniedOf c r
    payer := payerOf c pt r }

/-- Lines 101-106 of `app.py`, `compute_payer_denial_rate`: percentage of
the claims of this payer marked DENIED, `0.0` when the payer has no
claims. -/
def compute_payer_denial_rate (rows : List CanonClaimRow) (payer_id : String) : ℚ :=
  let subset := rows.filter (fun r => decide (r.payer = some payer_id))
  if subset.length = 0 then 0
  else ((subset.countP (fun r => r.denied) : ℚ) / (subset.length : ℚ)) * 100

/-- Lines 424-434 of `app.py`, the Predict Denial computation, restated as
the function from `(payer, encounter_class, cost, age)` to
`(prediction, rate, threshold)` over the canonical claims table. -/
def predictDenial (rows : List CanonClaimRow) (payer : String)
    (encounter_class : String) (cost age : Int) : String × ℚ × ℚ :=
  let payer_rate := compute_payer_denial_rate rows payer
  let threshold : ℚ := 5
  let threshold := if cost > 2000 then threshold - 1 else threshold
  let threshold := if age > 65 then threshold - 1 else threshold
  ((if payer_rate > threshold then "DENIED" else "NOT DENIED"),
    payer_rate, threshold)

/-- One transaction row; `fromdate` is the value of
`pd.to_datetime(row.FROMDATE, errors="coerce")` (`none` = `NaT`). -/
structure TransactionRow where
  fromdate : Option Int
  amount : ℚ
  deriving DecidableEq, Repr

/-- Line 223: `transactions.dropna(subset=["FROMDATE"])`. -/
def tx_valid (txs : List TransactionRow) : List TransactionRow :=
  txs.filter (fun t => t.fromdate.isSome)

/-- Lines 250-252: the inclusive date-range mask (false on `NaT`). -/
def inWindow (s e : Int) (t : TransactionRow) : Bool :=
  match t.fromdate with
  | some d => decide (s ≤ d) && decide (d ≤ e)
  | none => false

/-- Line 253: valid-dated transactions restricted to the window. -/
def tx_filtered (txs : List TransactionRow) (s e : Int) : List TransactionRow :=
  (tx_valid txs).filter (inWindow s e)

/-- Keep the first occurrence of each element, dropping later duplicates
(used for the distinct group keys). -/
def dedupFirst {α : Type} [DecidableEq α] : List α → List α
  | [] => []
  | x :: xs => x :: (dedupFirst xs).filter (fun y => decide (¬ y = x))

/-- The group sum for one calendar date of the filtered window. -/
def sumAmountOnDate (txs : List TransactionRow) (s e : Int) (d : Int) : ℚ :=
  (((tx_filtered txs s e).filter (fun t => decide (t.fromdate = some d))).map
    TransactionRow.amount).sum

/-- Lines 255-259: `groupby("ServiceDate")["AMOUNT"].sum()` — one
`(date, sum)` pair per distinct service date of the filtered window, dates
in ascending order as pandas sorts group keys. -/
def exposure_by_date (txs : List TransactionRow) (s e : Int) :
    List (Int × ℚ) :=
  (List.insertionSort (fun a b : Int => a ≤ b)
      (dedupFirst ((tx_filtered txs s e).filterMap TransactionRow.fromdate))).map
    (fun d => (d, sumAmountOnDate txs s e d))

/-- Line 276: `tx_filtered["AMOUNT"].sum()`. -/
def total_exposure (txs : List TransactionRow) (s e : Int) : ℚ :=
  ((tx_filtered txs s e).map TransactionRow.amount).sum

/-- Modelled from the spec, NOT from the code: the ordering that section
4.2 of the spec prescribes, where parsed dates compare normally and an
unparseable date sorts as earliest, so rows with valid dates always win
ties for latest.  Used only to state that the code disagrees with this
policy. -/
def natFirstLE : Option Int → Option Int → Bool
  | none, _ => true
  | some _, none => false
  | some a, some b => decide (a ≤ b)

/-- Row ordering induced by `natFirstLE`. -/
abbrev ptRelSpec (a b : PayerTransRow) : Prop :=
  natFirstLE a.startDate b.startDate = true

instance : DecidableRel ptRelSpec :=
  fun a b => instDecidableEqBool (natFirstLE a.startDate b.startDate) true

/-- Modelled from the spec: the latest-transition table that the policy of
section 4.2 (unparseable dates treated as earliest) would produce. -/
def latest_payer_spec (pt : PayerTransTable) : List (Option String × Option String) :=
  (keepLastByKey (fun r => r.patient)
    (if pt.hasSTART_DATE then List.insertionSort ptRelSpec pt.rows else pt.rows)).map
    (fun r => (r.patient, r.payer))

/-- Transition table for claim C1: patient P1 has a transition to payer X
with a valid date and a transition to payer Y with an unparseable date. -/
def C1pt : PayerTransTable :=
  { rows := [⟨some "P1", some "X", some 0⟩, ⟨some "P1", some "Y", none⟩]
    hasPATIENT := true, hasPAYER := true, hasSTART_DATE := true }

/-- The single claim row of the C1 example. -/
def C1r : RawClaimRow := ⟨some "P1", some "S", none, none, none, none⟩

/-- Claims table for claim C1: one claim of patient P1. -/
def C1c : RawClaimsTable :=
  { rows := [C1r]
    hasPATIENTID := true, hasSTATUS := true, hasSTATUSP := false
    hasSTATUS1 := false, hasOUTSTANDINGP := false, hasPAYER := false }

/-- The canonical row the pipeline produces for the C1 example: the
attributed payer is Y, the transition with the unparseable date. -/
def C1cr : CanonClaimRow := ⟨C1r, some "S", false, some "Y"⟩

/-- Transition table for claim C2: the join columns exist but patient P2
has no transition history. -/
def C2pt : PayerTransTable :=
  { rows := [], hasPATIENT := true, hasPAYER := true, hasSTART_DATE := true }

/-- The single claim row of the C2 example: its status cell is null. -/
def C2r : RawClaimRow := ⟨some "P2", none, none, none, none, none⟩

/-- Claims table for claim C2. -/
def C2c : RawClaimsTable :=
  { rows := [C2r]
    hasPATIENTID := true, hasSTATUS := true, hasSTATUSP := false
    hasSTATUS1 := false, hasOUTSTANDINGP := false, hasPAYER := false }

/-- The canonical row the pipeline produces for the C2 example: both the
status and the payer come out null. -/
def C2cr : CanonClaimRow := ⟨C2r, none, false, none⟩

/-- Canonical claims for the C4 witness: payer Z has two claims, one
denied. -/
def C4rows : List CanonClaimRow :=
  [⟨⟨none, none, none, none, none, none⟩, none, true, some "Z"⟩,
   ⟨⟨none, none, none, none, none, none⟩, none, false, some "Z"⟩]

/-- The single claim row of the C6 witness: positive outstanding balance. -/
def C6r : RawClaimRow := ⟨none, none, none, none, some 50, none⟩

/-- Claims table for the C6 witness. -/
def C6c : RawClaimsTable :=
  { rows := [C6r]
    hasPATIENTID := false, hasSTATUS := false, hasSTATUSP := false
    hasSTATUS1 := false, hasOUTSTANDINGP := true, hasPAYER := false }

/-- Empty transition table for the C6 witness. -/
def C6pt : PayerTransTable :=
  { rows := [], hasPATIENT := false, hasPAYER := false, hasSTART_DATE := false }

/-- The canonical row the pipeline produces for the C6 witness. -/
def C6cr : CanonClaimRow := ⟨C6r, some "UNKNOWN", true, some "Unknown"⟩

/-- The single claim row of the C7 witness: only the first fallback status
column is populated. -/
def C7r : RawClaimRow := ⟨none, none, some "ACT", none, none, none⟩

/-- Claims table for the C7 witness: no STATUS column, a STATUSP column. -/
def C7c : RawClaimsTable :=
  { rows := [C7r]
    hasPATIENTID := false, hasSTATUS := false, hasSTATUSP := true
    hasSTATUS1 := false, hasOUTSTANDINGP := false, hasPAYER := false }

/-- Empty transition table for the C7 witness. -/
def C7pt : PayerTransTable :=
  { rows := [], hasPATIENT := false, hasPAYER := false, hasSTART_DATE := false }

/-- The canonical row the pipeline produces for the C7 witness. -/
def C7cr : CanonClaimRow := ⟨C7r, some "ACT", false, some "Unknown"⟩

/-- Transactions for the C8 witness: two rows on day 10 and one row with an
unparseable date. -/
def C8txs : List TransactionRow := [⟨some 10, 100⟩, ⟨some 10, 50⟩, ⟨none, 9999⟩]

/-- The single claim row of the C10 witness. -/
def C10r : RawClaimRow := ⟨some "P9", some "S", none, none, none, none⟩

/-- Claims table for the C10 witness: no PATIENTID column, so attribution
is skipped. -/
def C10c : RawClaimsTable :=
  { rows := [C10r]
    hasPATIENTID := false, hasSTATUS := true, hasSTATUSP := false
    hasSTATUS1 := false, hasOUTSTANDINGP := false, hasPAYER := false }

/-- Transition table for the C10 witness: it even holds a transition of
the patient, which the skipped attribution never consults. -/
def C10pt : PayerTransTable :=
  { rows := [⟨some "P9", some "X", some 3⟩]
    hasPATIENT := true, hasPAYER := true, hasSTART_DATE := true }

/-! Helper lemmas about the building blocks of the pipeline. -/

theorem natLastLE_refl (a : Option Int) : natLastLE a a = true := by
  cases a <;> simp [natLastLE]

theorem natLastLE_total (a b : Option Int) :
    natLastLE a b = true ∨ natLastLE b a = true := by
  cases a <;> cases b <;> simp [natLastLE]
  omega

theorem natLastLE_trans {a b c : Option Int} (h1 : natLastLE a b = true)
    (h2 : natLastLE b c = true) : natLastLE a c = true := by
  cases a <;> cases b <;> cases c <;> simp_all [natLastLE]
  omega

instance : IsTotal PayerTransRow ptRel := ⟨fun a b => natLastLE_total _ _⟩

instance : IsTrans PayerTransRow ptRel := ⟨fun _ _ _ => natLastLE_trans⟩

theorem mem_of_mem_keepLastByKey {α β : Type} [DecidableEq β] (key : α → β)
    {l : List α} {a : α} (h : a ∈ keepLastByKey key l) : a ∈ l := by
  induction l with
  | nil => simp [keepLastByKey] at h
  | cons x xs ih =>
      unfold keepLastByKey at h
      split at h
      · exact List.mem_cons_of_mem x (ih h)
      · rcases List.mem_cons.mp h with h | h
        · exact h ▸ List.mem_cons_self x xs
        · exact List.mem_cons_of_mem x (ih h)

theorem keys_nodup_keepLastByKey {α β : Type} [DecidableEq β] (key : α → β)
    (l : List α) : ((keepLastByKey key l).map key).Nodup := by
  induction l with
  | nil => simp [keepLastByKey]
  | cons x xs ih =>
      unfold keepLastByKey
      split
      · exact ih
      · rename_i hany
        rw [List.map_cons, List.nodup_cons]
        refine ⟨?_, ih⟩
        intro hmem
        rcases List.mem_map.mp hmem with ⟨b, hb, hkb⟩
        have hbxs : b ∈ xs := mem_of_mem_keepLastByKey key hb
        have := (List.any_eq_false.mp (Bool.of_not_eq_true hany)) b hbxs
        simp [hkb] at this

theorem exists_key_keepLastByKey {α β : Type} [DecidableEq β] (key : α → β)
    {l : List α} : ∀ a ∈ l, ∃ b ∈ keepLastByKey key l, key b = key a := by
  induction l with
  | nil => intro a h; simp at h
  | cons x xs ih =>
      intro a h
      unfold keepLastByKey
      rcases List.mem_cons.mp h with rfl | hx
      · split
        · rename_i hany
          rcases List.any_eq_true.mp hany with ⟨y, hy, hky⟩
          simp only [decide_eq_true_eq] at hky
          rcases ih y hy with ⟨b, hb, hkb⟩
          exact ⟨b, hb, hkb.trans hky⟩
        · exact ⟨a, List.mem_cons_self _ _, rfl⟩
      · split
        · exact ih a hx
        · rcases ih a hx with ⟨b, hb, hkb⟩
          exact ⟨b, List.mem_cons_of_mem _ hb, hkb⟩

theorem keepLastByKey_max {α β : Type} [DecidableEq β] {r : α → α → Prop}
    (key : α → β) {l : List α} (hs : List.Pairwise r l) (hrefl : ∀ x, r x x) :
    ∀ b ∈ keepLastByKey key l, ∀ a ∈ l, key a = key b → r a b := by
  induction l with
  | nil => intro b hb; simp [keepLastByKey] at hb
  | cons x xs ih =>
      rcases List.pairwise_cons.mp hs with ⟨hx, hxs⟩
      intro b hb a ha hk
      unfold keepLastByKey at hb
      split at hb
      · rcases List.mem_cons.mp ha with rfl | hax
        · exact hx b (mem_of_mem_keepLastByKey key hb)
        · exact ih hxs b hb a hax hk
      · rename_i hany
        rcases List.mem_cons.mp hb with rfl | hbk
        · rcases List.mem_cons.mp ha with rfl | hax
          · exact hrefl a
          · have := (List.any_eq_false.mp (Bool.of_not_eq_true hany)) a hax
            simp [hk] at this
        · rcases List.mem_cons.mp ha with rfl | hax
          · exact hx b (mem_of_mem_keepLastByKey key hbk)
          · exact ih hxs b hbk a hax hk

theorem filter_eq_find_toList {R K : Type} [DecidableEq K] (rk : R → K)
    {rrows : List R} (h : (rrows.map rk).Nodup) (k : K) :
    rrows.filter (fun r => decide (rk r = k)) =
      (rrows.find? (fun r => decide (rk r = k))).toList := by
  induction rrows with
  | nil => rfl
  | cons r rs ih =>
      rw [List.map_cons, List.nodup_cons] at h
      by_cases hk : rk r = k
      · rw [List.filter_cons_of_pos (by simpa using hk),
          List.find?_cons_of_pos _ (by simpa using hk)]
        have hnil : rs.filter (fun a => decide (rk a = k)) = [] := by
          rw [List.filter_eq_nil_iff]
          intro a ha
          simp only [decide_eq_true_eq]
          intro hak
          exact h.1 (List.mem_map.mpr ⟨a, ha, by rw [hak, hk]⟩)
        simp [hnil]
      · rw [List.filter_cons_of_neg (by simpa using hk),
          List.find?_cons_of_neg _ (by simpa using hk)]
        exact ih h.2

theorem leftMerge_eq_map_find {L R K : Type} [DecidableEq K]
    (lrows : List L) (rrows : List R) (lk : L → K) (rk : R → K)
    (h : (rrows.map rk).Nodup) :
    leftMerge lrows rrows lk rk =
      lrows.map (fun l => (l, rrows.find? (fun r => decide (rk r = lk l)))) := by
  induction lrows with
  | nil => rfl
  | cons x xs ih =>
      unfold leftMerge at ih ⊢
      rw [List.flatMap_cons, ih, List.map_cons]
      rw [filter_eq_find_toList rk h (lk x)]
      cases hf : rrows.find? (fun r => decide (rk r = lk x)) <;> simp [hf]

theorem latest_payer_keys_nodup (pt : PayerTransTable) :
    ((latest_payer pt).map Prod.fst).Nodup := by
  unfold latest_payer
  rw [List.map_map]
  exact keys_nodup_keepLastByKey (fun r => r.patient) (pt_sorted pt)

theorem normalizeClaims_eq_map (c : RawClaimsTable) (pt : PayerTransTable) :
    normalizeClaims c pt = c.rows.map (canonOf c pt) := by
  unfold normalizeClaims
  by_cases hm : mergeCond c pt = true
  · rw [if_pos hm,
      leftMerge_eq_map_find c.rows (latest_payer pt) _ _ (latest_payer_keys_nodup pt),
      List.map_map]
    apply List.map_congr_left
    intro r _
    simp [canonOf, payerOf, hm, Function.comp]
  · rw [if_neg hm]
    apply List.map_congr_left
    intro r _
    simp only [canonOf, payerOf, if_neg hm]

theorem canon_at {c : RawClaimsTable} {pt : PayerTransTable} {i : Nat}
    {r : RawClaimRow} {cr : CanonClaimRow}
    (hr : c.rows[i]? = some r) (hcr : (normalizeClaims c pt)[i]? = some cr) :
    cr = canonOf c pt r := by
  rw [normalizeClaims_eq_map, List.getElem?_map, hr] at hcr
  simpa using hcr.symm

theorem mem_pt_sorted {pt : PayerTransTable} {x : PayerTransRow} :
    x ∈ pt_sorted pt ↔ x ∈ pt.rows := by
  unfold pt_sorted
  split
  · exact List.mem_insertionSort ptRel
  · exact Iff.rfl

theorem sorted_pt_sorted (pt : PayerTransTable) (hs : pt.hasSTART_DATE = true) :
    List.Pairwise ptRel (pt_sorted pt) := by
  unfold pt_sorted
  rw [if_pos hs]
  exact List.sorted_insertionSort ptRel pt.rows

theorem payerOf_merge_none {c : RawClaimsTable} {pt : PayerTransTable}
    {r : RawClaimRow} (hm : mergeCond c pt = true) (hp : c.hasPAYER = false)
    (h : ∀ t ∈ pt.rows, ¬ t.patient = r.patientId) : payerOf c pt r = none := by
  unfold payerOf
  rw [if_pos hm, if_neg (by simp [hp])]
  have hfind : (latest_payer pt).find? (fun q => decide (q.1 = r.patientId)) = none := by
    rw [List.find?_eq_none]
    intro q hq
    unfold latest_payer at hq
    rcases List.mem_map.mp hq with ⟨b, hb, rfl⟩
    have hb2 : b ∈ pt.rows := mem_pt_sorted.mp (mem_of_mem_keepLastByKey _ hb)
    simpa using h b hb2
  rw [hfind]
  rfl

theorem payerOf_merge_max {c : RawClaimsTable} {pt : PayerTransTable}
    {r : RawClaimRow} (hm : mergeCond c pt = true) (hp : c.hasPAYER = false)
    (hs : pt.hasSTART_DATE = true) {t : PayerTransRow} (ht : t ∈ pt.rows)
    (htp : t.patient = r.patientId) :
    ∃ u ∈ pt.rows, u.patient = r.patientId ∧ payerOf c pt r = u.payer ∧
      ∀ v ∈ pt.rows, v.patient = r.patientId →
        natLastLE v.startDate u.startDate = true := by
  have ht2 : t ∈ pt_sorted pt := mem_pt_sorted.mpr ht
  rcases exists_key_keepLastByKey (fun r => r.patient) t ht2 with ⟨b, hb, hkb⟩
  have hqmem : (b.patient, b.payer) ∈ latest_payer pt :=
    List.mem_map.mpr ⟨b, hb, rfl⟩
  have hsome : ((latest_payer pt).find? (fun q => decide (q.1 = r.patientId))).isSome := by
    rw [List.find?_isSome]
    exact ⟨(b.patient, b.payer), hqmem, by simp [hkb, htp]⟩
  rcases Option.isSome_iff_exists.mp hsome with ⟨q, hq⟩
  have hqlat : q ∈ latest_payer pt := List.mem_of_find?_eq_some hq
  have hq1 : q.1 = r.patientId := by simpa using List.find?_some hq
  rcases List.mem_map.mp hqlat with ⟨u, hu, rfl⟩
  refine ⟨u, mem_pt_sorted.mp (mem_of_mem_keepLastByKey _ hu), hq1, ?_, ?_⟩
  · unfold payerOf
    rw [if_pos hm, if_neg (by simp [hp]), hq]
    rfl
  · intro v hv hvp
    exact keepLastByKey_max (fun r => r.patient) (sorted_pt_sorted pt hs)
      (fun x => natLastLE_refl x.startDate) u hu v (mem_pt_sorted.mpr hv)
      (by show v.patient = u.patient; rw [hvp]; exact hq1.symm)

theorem tx_filtered_skip_nat (pre post : List TransactionRow) (a : ℚ) (s e : Int) :
    tx_filtered (pre ++ ⟨none, a⟩ :: post) s e = tx_filtered (pre ++ post) s e := by
  simp [tx_filtered, tx_valid, List.filter_append]

/-! The claims. -/

/-- Claim C1, corrected.  The code refutes the stated tie-break (rows with
valid dates always win over rows with unparseable dates): in `C1pt`,
patient P1 has a valid-dated transition to payer X and an
unparseable-dated transition to payer Y, and the pipeline attributes Y,
while the latest-transition table built per the stated policy
(`latest_payer_spec`, unparseable earliest) attributes X. -/
theorem C1_attribution_counterexample :
    (normalizeClaims C1c C1pt).map CanonClaimRow.payer ≠
      C1c.rows.map (fun r =>
        ((latest_payer_spec C1pt).find? (fun q => decide (q.1 = r.patientId))).bind
          (fun q => q.2)) := by
  decide

/-- Claim C1, amended: payer attribution assigns each claim the payer of a
transition of its patient whose parsed start date is maximal in the
ordering that puts unparseable dates LAST (pandas sorts `NaT` rows last,
so a row with an unparseable date wins the latest ranking over rows with
valid dates); transitions are sorted by start date ascending, only the
last transition per patient is kept, and it is left-joined onto claims by
patient identifier, with claims of patients that have no transition
receiving a null payer. -/
theorem C1_attribution (c : RawClaimsTable) (pt : PayerTransTable)
    (h1 : c.hasPATIENTID = true) (h2 : pt.hasPATIENT = true)
    (h3 : pt.hasPAYER = true) (hp : c.hasPAYER = false)
    (hs : pt.hasSTART_DATE = true) (i : Nat) (r : RawClaimRow)
    (cr : CanonClaimRow) (hr : c.rows[i]? = some r)
    (hcr : (normalizeClaims c pt)[i]? = some cr) :
    ((∀ t ∈ pt.rows, ¬ t.patient = r.patientId) → cr.payer = none) ∧
    (∀ t ∈ pt.rows, t.patient = r.patientId →
      ∃ u ∈ pt.rows, u.patient = r.patientId ∧ cr.payer = u.payer ∧
        ∀ v ∈ pt.rows, v.patient = r.patientId →
          natLastLE v.startDate u.startDate = true) := by
  have hm : mergeCond c pt = true := by simp [mergeCond, h1, h2, h3]
  have hc := canon_at hr hcr
  subst hc
  constructor
  · intro h
    exact payerOf_merge_none hm hp h
  · intro t ht htp
    exact payerOf_merge_max hm hp hs ht htp

/-- Claim C1, witness: in the concrete C1 tables the attributed payer of
the claim equals the payer of a date-maximal transition of patient P1. -/
theorem C1_attribution_witness :
    ∃ u ∈ C1pt.rows, u.patient = C1r.patientId ∧ C1cr.payer = u.payer ∧
      ∀ v ∈ C1pt.rows, v.patient = C1r.patientId →
        natLastLE v.startDate u.startDate = true :=
  (C1_attribution C1c C1pt rfl rfl rfl rfl rfl 0 C1r C1cr rfl (by decide)).2
    ⟨some "P1", some "Y", none⟩ (by decide) rfl

/-- Claim C2, corrected.  The code refutes the stated invariant: in the
concrete tables `C2c`/`C2pt` the attribution merge runs, patient P2 has no
transition history, and the resulting claim row ends the pipeline with a
null payer (and a null status), not the sentinel `"Unknown"`. -/
theorem C2_nonnull_counterexample :
    ¬ (∀ cr ∈ normalizeClaims C2c C2pt, (¬ cr.status = none) ∧ ¬ cr.payer = none) := by
  decide

/-- Claim C2, amended: after normalization every claim row has exactly one
status field and one payer field, but either value may be null — when the
attribution merge runs (all join columns present, no pre-existing PAYER
column), a claim whose patient has no transition history receives a null
payer rather than the sentinel `"Unknown"`, and the status is null where
the selected source status cell is null.  The sentinel `"Unknown"` is
assigned only when the PAYER column is absent after attribution. -/
theorem C2_null_fields (c : RawClaimsTable) (pt : PayerTransTable)
    (h1 : c.hasPATIENTID = true) (h2 : pt.hasPATIENT = true)
    (h3 : pt.hasPAYER = true) (hp : c.hasPAYER = false)
    (i : Nat) (r : RawClaimRow) (cr : CanonClaimRow)
    (hr : c.rows[i]? = some r) (hcr : (normalizeClaims c pt)[i]? = some cr) :
    ((∀ t ∈ pt.rows, ¬ t.patient = r.patientId) →
      cr.payer = none ∧ ¬ cr.payer = some "Unknown") ∧
    (c.hasSTATUS = true → r.status = none → cr.status = none) := by
  have hm : mergeCond c pt = true := by simp [mergeCond, h1, h2, h3]
  have hc := canon_at hr hcr
  subst hc
  constructor
  · intro h
    have hnone : (canonOf c pt r).payer = none := payerOf_merge_none hm hp h
    exact ⟨hnone, by rw [hnone]; simp⟩
  · intro hst hnull
    simp [canonOf, statusOf, hst, hnull]

/-- Claim C2, witness: the concrete C2 claim of patient P2, who has no
transitions, ends with a null payer and not the sentinel. -/
theorem C2_null_fields_witness :
    (∀ t ∈ C2pt.rows, ¬ t.patient = C2r.patientId) ∧
      (C2cr.payer = none ∧ ¬ C2cr.payer = some "Unknown") :=
  ⟨by decide,
    (C2_null_fields C2c C2pt rfl rfl rfl rfl 0 C2r C2cr rfl (by decide)).1 (by decide)⟩

/-- Claim C3, confirmed: the payer-attribution pipeline preserves the
claims rows exactly — projecting each canonical row back to its original
columns yields the input row list, so every input claim appears exactly
once, in order, and the output length equals the input length, whether or
not a payer was found. -/
theorem C3_join_preserves_rows (c : RawClaimsTable) (pt : PayerTransTable) :
    (normalizeClaims c pt).map CanonClaimRow.orig = c.rows := by
  rw [normalizeClaims_eq_map, List.map_map]
  have : (CanonClaimRow.orig ∘ canonOf c pt) = id := by
    funext r; rfl
  rw [this, List.map_id]

/-- Claim C4, confirmed: for a payer with zero matching claims the
denial-rate function returns `0` (it never divides by zero), and for a
payer with at least one matching claim it returns
`100 * (denied matching claims / matching claims)`. -/
theorem C4_denial_rate (rows : List CanonClaimRow) (p : String) :
    (rows.countP (fun r => decide (r.payer = some p)) = 0 →
      compute_payer_denial_rate rows p = 0) ∧
    (0 < rows.countP (fun r => decide (r.payer = some p)) →
      compute_payer_denial_rate rows p =
        100 * (rows.countP (fun r => decide (r.payer = some p) && r.denied) : ℚ) /
          (rows.countP (fun r => decide (r.payer = some p)) : ℚ)) := by
  constructor
  · intro h
    unfold compute_payer_denial_rate
    rw [List.countP_eq_length_filter] at h
    simp [h]
  · intro h
    unfold compute_payer_denial_rate
    rw [List.countP_eq_length_filter] at h
    have hne : (rows.filter (fun r => decide (r.payer = some p))).length ≠ 0 := by
      omega
    rw [if_neg hne]
    have hcc : (rows.filter (fun r => decide (r.payer = some p))).countP
        (fun r => r.denied)
        = rows.countP (fun r => decide (r.payer = some p) && r.denied) := by
      rw [List.countP_filter]
      simp [Bool.and_comm]
    rw [hcc]
    simp only [List.countP_eq_length_filter]
    have hq : ((rows.filter (fun r => decide (r.payer = some p))).length : ℚ) ≠ 0 := by
      exact_mod_cast hne
    field_simp
    ring

/-- Claim C4, witness: payer Z with two claims, one denied, gets rate
`100 * 1 / 2`. -/
theorem C4_denial_rate_witness :
    0 < C4rows.countP (fun r => decide (r.payer = some "Z")) ∧
      compute_payer_denial_rate C4rows "Z" =
        100 * (C4rows.countP (fun r => decide (r.payer = some "Z") && r.denied) : ℚ) /
          (C4rows.countP (fun r => decide (r.payer = some "Z")) : ℚ) :=
  ⟨by decide, (C4_denial_rate C4rows "Z").2 (by decide)⟩

/-- Claim C5, confirmed: the threshold of the estimator equals the 5.0
baseline minus 1.0 exactly when cost strictly exceeds 2000 and minus a
further 1.0 exactly when age strictly exceeds 65 (independent and
additive; cost 2000 and age 65 leave the baseline unchanged since both
comparisons are strict), and the prediction is DENIED exactly when the
historical rate strictly exceeds the threshold (a tie is NOT DENIED). -/
theorem C5_threshold_and_prediction (rows : List CanonClaimRow) (p ec : String)
    (cost age : Int) :
    (predictDenial rows p ec cost age).2.2 =
      5 - (if 2000 < cost then (1 : ℚ) else 0) - (if 65 < age then (1 : ℚ) else 0) ∧
    ((predictDenial rows p ec cost age).1 = "DENIED" ↔
      (predictDenial rows p ec cost age).2.2 <
        (predictDenial rows p ec cost age).2.1) := by
  constructor
  · simp only [predictDenial]
    split_ifs <;> norm_num
  · simp only [predictDenial]
    split_ifs <;> simp_all

/-- Claim C6, confirmed: when the outstanding-balance column exists, the
derived denied flag is true exactly when the balance is positive (and
false on a null balance); when the column is absent, every row gets a
false denied flag. -/
theorem C6_denied_flag (c : RawClaimsTable) (pt : PayerTransTable) (i : Nat)
    (r : RawClaimRow) (cr : CanonClaimRow)
    (hr : c.rows[i]? = some r) (hcr : (normalizeClaims c pt)[i]? = some cr) :
    (c.hasOUTSTANDINGP = true → ∀ v : ℚ, r.outstandingP = some v →
      (cr.denied = true ↔ 0 < v)) ∧
    (c.hasOUTSTANDINGP = true → r.outstandingP = none → cr.denied = false) ∧
    (c.hasOUTSTANDINGP = false → cr.denied = false) := by
  have hc := canon_at hr hcr
  subst hc
  refine ⟨?_, ?_, ?_⟩ <;> intros <;> simp_all [canonOf, deniedOf]

/-- Claim C6, witness: a claim with outstanding balance 50 is marked
denied. -/
theorem C6_denied_flag_witness : C6cr.denied = true ↔ (0 : ℚ) < 50 :=
  (C6_denied_flag C6c C6pt 0 C6r C6cr rfl (by decide)).1 rfl 50 rfl

/-- Claim C7, confirmed: status resolution is column-presence-driven and
ordered — with a STATUS column every row keeps its STATUS cell; without
it, a STATUSP column populates status; failing that, a STATUS1 column
does; with none of the three, every row gets the literal `"UNKNOWN"`.
The same column-level flags decide the outcome for every row index `i`,
so the choice is made once per load, not per row. -/
theorem C7_status_resolution (c : RawClaimsTable) (pt : PayerTransTable) (i : Nat)
    (r : RawClaimRow) (cr : CanonClaimRow)
    (hr : c.rows[i]? = some r) (hcr : (normalizeClaims c pt)[i]? = some cr) :
    (c.hasSTATUS = true → cr.status = r.status) ∧
    (c.hasSTATUS = false → c.hasSTATUSP = true → cr.status = r.statusP) ∧
    (c.hasSTATUS = false → c.hasSTATUSP = false → c.hasSTATUS1 = true →
      cr.status = r.status1) ∧
    (c.hasSTATUS = false → c.hasSTATUSP = false → c.hasSTATUS1 = false →
      cr.status = some "UNKNOWN") := by
  have hc := canon_at hr hcr
  subst hc
  refine ⟨?_, ?_, ?_, ?_⟩ <;> intros <;> simp_all [canonOf, statusOf]

/-- Claim C7, witness: with no STATUS column and a populated STATUSP
column, the canonical status is the STATUSP cell. -/
theorem C7_status_resolution_witness : C7cr.status = C7r.statusP :=
  (C7_status_resolution C7c C7pt 0 C7r C7cr rfl (by decide)).2.1 rfl rfl

/-- Claim C8, confirmed: the scalar window total is the sum of amounts of
exactly the transactions with a parseable service date inside the
inclusive window; every per-date value of the grouped series is the sum of
amounts of exactly the in-window transactions of that date; and inserting
a transaction with an unparseable date anywhere changes neither the series
nor the total (such rows are excluded, never coerced). -/
theorem C8_exposure (txs : List TransactionRow) (s e : Int) :
    total_exposure txs s e =
      ((txs.filter (inWindow s e)).map TransactionRow.amount).sum ∧
    (∀ d v, (d, v) ∈ exposure_by_date txs s e →
      v = ((txs.filter (fun t => decide (t.fromdate = some d) && inWindow s e t)).map
        TransactionRow.amount).sum) ∧
    (∀ pre post : List TransactionRow, ∀ a : ℚ,
      total_exposure (pre ++ ⟨none, a⟩ :: post) s e =
        total_exposure (pre ++ post) s e ∧
      exposure_by_date (pre ++ ⟨none, a⟩ :: post) s e =
        exposure_by_date (pre ++ post) s e) := by
  have hfuse : ∀ txs' : List TransactionRow,
      tx_filtered txs' s e = txs'.filter (inWindow s e) := by
    intro txs'
    unfold tx_filtered tx_valid
    rw [List.filter_filter]
    apply List.filter_congr
    intro t _
    cases ht : t.fromdate <;> simp [inWindow, ht]
  refine ⟨?_, ?_, ?_⟩
  · unfold total_exposure
    rw [hfuse]
  · intro d v hm
    unfold exposure_by_date at hm
    rcases List.mem_map.mp hm with ⟨d0, _, heq⟩
    have hd : d0 = d := congrArg Prod.fst heq
    subst hd
    have hv : v = sumAmountOnDate txs s e d0 := (congrArg Prod.snd heq).symm
    rw [hv]
    unfold sumAmountOnDate
    rw [hfuse, List.filter_filter]
  · intro pre post a
    constructor
    · unfold total_exposure
      rw [tx_filtered_skip_nat]
    · unfold exposure_by_date sumAmountOnDate
      simp only [tx_filtered_skip_nat]

/-- Claim C8, witness: on the concrete transactions (two rows on day 10,
one row with an unparseable date) the total matches the filtered sum, and
dropping the unparseable row does not change the total. -/
theorem C8_exposure_witness :
    total_exposure C8txs 0 20 =
      ((C8txs.filter (inWindow 0 20)).map TransactionRow.amount).sum ∧
    total_exposure ([⟨some 10, 100⟩, ⟨some 10, 50⟩] ++ ⟨none, 9999⟩ :: []) 0 20 =
      total_exposure ([⟨some 10, 100⟩, ⟨some 10, 50⟩] ++ []) 0 20 :=
  ⟨(C8_exposure C8txs 0 20).1,
    ((C8_exposure C8txs 0 20).2.2 [⟨some 10, 100⟩, ⟨some 10, 50⟩] [] 9999).1⟩

/-- Claim C9, confirmed: the estimator result (prediction, rate and
threshold) is identical for any two values of the encounter-class input —
the parameter takes part in neither computation. -/
theorem C9_encounter_class_independent (rows : List CanonClaimRow)
    (p ec1 ec2 : String) (cost age : Int) :
    predictDenial rows p ec1 cost age = predictDenial rows p ec2 cost age := rfl

/-- Claim C10, confirmed: when the claims table has no PATIENTID column or
the transitions table lacks the PATIENT or the PAYER column, attribution
is skipped, the pipeline still produces one output row per input row, and
(the claims table having no PAYER column of its own) every claim receives
the sentinel payer `"Unknown"`. -/
theorem C10_skip_attribution (c : RawClaimsTable) (pt : PayerTransTable)
    (h : c.hasPATIENTID = false ∨ pt.hasPATIENT = false ∨ pt.hasPAYER = false)
    (hp : c.hasPAYER = false) :
    (normalizeClaims c pt).length = c.rows.length ∧
    ∀ cr ∈ normalizeClaims c pt, cr.payer = some "Unknown" := by
  have hm : mergeCond c pt = false := by
    rcases h with h | h | h <;> simp [mergeCond, h]
  rw [normalizeClaims_eq_map]
  refine ⟨List.length_map _ _, ?_⟩
  intro cr hcr
  rcases List.mem_map.mp hcr with ⟨r, _, rfl⟩
  simp [canonOf, payerOf, hm, hp]

/-- Claim C10, witness: a claims table without a PATIENTID column keeps
its single row and gets the sentinel payer, even though the transitions
table holds a transition for the patient. -/
theorem C10_skip_attribution_witness :
    (normalizeClaims C10c C10pt).length = C10c.rows.length ∧
    ∀ cr ∈ normalizeClaims C10c C10pt, cr.payer = some "Unknown" :=
  C10_skip_attribution C10c C10pt (Or.inl rfl) rfl

end ClaimApp
